import Mathlib

/-!
Verification of the op-stack table engine of a zero-knowledge virtual machine
(file `triton-vm/src/table/op_stack_table.rs`).

The development shallowly embeds the table generation code:

* `fill_trace` — projecting processor rows into the op-stack table,
* `pad` — padding the table to a power-of-two height,
* `get_padding_rows` — the disabled trait entry point,
* `extend` — computing the two extension columns from challenges,
* `ext_transition_constraints_as_circuits` — the six transition-constraint
  circuits, as a deep expression type with an evaluator.

The base field, the extension field, the column enumerations, the processor
columns, and the cross-table-argument initial value live in crates outside the
verified sources; they are modelled from the specification where needed and
marked as such in their doc comments.

Machine integers (`u64`, `usize`) are modelled as `Nat` with explicit wrapping
(`% 2 ^ 64`) where the source can overflow in release builds.  A Rust `panic!`
is modelled as `Option.none` (or `Except.error s` where the claim needs the
state at the moment of the abort).
-/

/-- Modelled from the spec: the base prime field is an external dependency
("a base prime field ... with an `inverse` operation that returns a defined
sentinel on the non-invertible (zero) input").  We instantiate it with the
64-bit prime 2^64 - 2^32 + 1 used by the implementation's field crate; the
`ZMod` inverse already satisfies the "inverse of zero is zero" sentinel
convention. -/
def bFieldPrime : ℕ := 2 ^ 64 - 2 ^ 32 + 1

/-- The base field `BFieldElement` (external crate), modelled as `ZMod` of the
64-bit prime.  `value()` is `ZMod.val`. -/
abbrev BFieldElement := ZMod bFieldPrime

instance : NeZero bFieldPrime := ⟨by decide⟩

/-- Modelled from the spec: `OP_STACK_REG_COUNT` (crate module `op_stack`, not
among the verified sources).  The spec fixes it via "bucket list indexed by
`pointer − base-register-count`" together with the initial constraint pinning
the op-stack pointer to 16. -/
def OP_STACK_REG_COUNT : ℕ := 16

/-- Wrapping 64-bit subtraction `a - b` for `a b < 2 ^ 64`: release-mode Rust
semantics of `u64`/`usize` subtraction. -/
def wrappingSub64 (a b : ℕ) : ℕ := (a + (2 ^ 64 - b)) % 2 ^ 64

/-- One row of the op-stack base table: the five base columns
`CLK`, `IB1ShrinkStack`, `OSP`, `OSV`, `InverseOfClkDiffMinusOne`
(enumeration `OpStackBaseTableColumn`, modelled from the spec since the column
crate is not among the verified sources; the order is the one used by
`fill_trace`, `pad` and `extend`). -/
structure OpStackRow (F : Type) where
  clk : F
  ib1ShrinkStack : F
  osp : F
  osv : F
  inverseOfClkDiffMinusOne : F
deriving DecidableEq

/-- The projection of one processor row that `fill_trace` reads: the registers
`CLK`, `IB1`, `OSP`, `OSV` (enumeration `ProcessorBaseTableColumn`, modelled
from the spec: "for every processor cycle, extract (clock, stack-shrink
indicator bit, op-stack-pointer, op-stack-value)"). -/
structure ProcessorRow (F : Type) where
  clk : F
  ib1 : F
  osp : F
  osv : F
deriving DecidableEq

/-- Default row used with `List.getD`. -/
def dRow : OpStackRow BFieldElement := ⟨0, 0, 0, 0, 0⟩

/-- Phase 1 of `fill_trace` (source lines 299-314): bucket the projected
processor rows by `osp.value() as usize - OP_STACK_REG_COUNT` (wrapping
subtraction in release builds).  `Ordering.Less` appends to an existing
bucket, `Ordering.Equal` opens the next bucket, `Ordering.Greater` panics
("OSP must increase by at most 1 per execution step"), modelled as `none`.
A bucket entry is the tuple `(clk, ib1, osv)`. -/
def buildBuckets :
    List (ProcessorRow BFieldElement) →
    List (List (BFieldElement × BFieldElement × BFieldElement)) →
    Option (List (List (BFieldElement × BFieldElement × BFieldElement)))
  | [], buckets => some buckets
  | r :: rs, buckets =>
    let ospMinus16 := wrappingSub64 r.osp.val OP_STACK_REG_COUNT
    if ospMinus16 < buckets.length then
      buildBuckets rs
        (buckets.set ospMinus16 (buckets.getD ospMinus16 [] ++ [(r.clk, r.ib1, r.osv)]))
    else if ospMinus16 = buckets.length then
      buildBuckets rs (buckets ++ [[(r.clk, r.ib1, r.osv)]])
    else none

/-- Phase 2a of `fill_trace` (source lines 316-329): flatten the buckets in
pointer order, recovering `osp = bucket index + OP_STACK_REG_COUNT` for each
row.  Yields the `(clk, ib1, osp, osv)` quadruples in table-row order. -/
def flattenFrom :
    ℕ → List (List (BFieldElement × BFieldElement × BFieldElement)) →
    List (BFieldElement × BFieldElement × BFieldElement × BFieldElement)
  | _, [] => []
  | idx, bucket :: rest =>
    bucket.map (fun t => (t.1, t.2.1, ((idx + OP_STACK_REG_COUNT : ℕ) : BFieldElement), t.2.2))
      ++ flattenFrom (idx + 1) rest

/-- Phase 2b of `fill_trace`: write the four columns `CLK`, `IB1ShrinkStack`,
`OSP`, `OSV` of the flattened rows into the destination array row by row.  The
`InverseOfClkDiffMinusOne` column of every destination row is left untouched
by this phase. -/
def writeBase :
    List (BFieldElement × BFieldElement × BFieldElement × BFieldElement) →
    List (OpStackRow BFieldElement) → List (OpStackRow BFieldElement)
  | [], dest => dest
  | _, [] => []
  | (c, i1, o, v) :: fs, r :: dest =>
    ⟨c, i1, o, v, r.inverseOfClkDiffMinusOne⟩ :: writeBase fs dest

/-- Phase 3 of `fill_trace` (source lines 332-341): for every row index
`i < n - 1` set `InverseOfClkDiffMinusOne` to
`inverse_or_zero(next.clk - this.clk - 1)`.  The `ZMod` inverse is the
zero-sentinel inverse.  The row at index `n - 1` (and any row past it) is not
assigned. -/
def writeInvAux (full : List (OpStackRow BFieldElement)) (n : ℕ) :
    ℕ → List (OpStackRow BFieldElement) → List (OpStackRow BFieldElement)
  | _, [] => []
  | i, r :: rs =>
    (if i + 1 < n then
      { r with inverseOfClkDiffMinusOne := ((full.getD (i + 1) dRow).clk - r.clk - 1)⁻¹ }
    else r) :: writeInvAux full n (i + 1) rs

/-- See `writeInvAux`. -/
def writeInv (n : ℕ) (rows : List (OpStackRow BFieldElement)) :
    List (OpStackRow BFieldElement) :=
  writeInvAux rows n 0 rows

/-- `OpStackTable::fill_trace` (source lines 292-342).  `aet` is the processor
matrix of the algebraic execution trace (projected to the four registers that
are read), `dest` the preallocated destination rows.  Returns `none` when the
source panics: a pointer jump of two or more in phase 1, a destination with
fewer rows than the trace (index out of bounds while writing), a violated
length assertion, or an empty trace (the loop bound `len - 1` of phase 3
underflows). -/
def fill_trace (aet : List (ProcessorRow BFieldElement))
    (dest : List (OpStackRow BFieldElement)) : Option (List (OpStackRow BFieldElement)) :=
  match buildBuckets aet [] with
  | none => none
  | some buckets =>
    let flat := flattenFrom 0 buckets
    if dest.length < flat.length then none
    else if aet.length ≠ flat.length then none
    else if aet.length = 0 then none
    else some (writeInv aet.length (writeBase flat dest))

/-- The scanning condition of the bucket phase, as a primitive recursion over
the trace: starting from `count` buckets, does the scan reach a row whose
(wrapping) `osp - 16` exceeds the bucket count accumulated so far? -/
def scanPanicB (count : ℕ) : List (ProcessorRow BFieldElement) → Bool
  | [] => false
  | r :: rs =>
    let m := wrappingSub64 r.osp.val OP_STACK_REG_COUNT
    if count < m then true
    else scanPanicB (if m = count then count + 1 else count) rs

/-- The pointer discipline of an honest trace, scanned against the previous
pointer value: every pointer is at least 16 and grows by at most one per
step. -/
def ospChainB : ℕ → List (ProcessorRow BFieldElement) → Bool
  | _, [] => true
  | prev, r :: rs =>
    decide (OP_STACK_REG_COUNT ≤ r.osp.val) && decide (r.osp.val ≤ prev + 1)
      && ospChainB r.osp.val rs

/-- An honest trace for the bucket phase: the first pointer is exactly 16, and
from then on every pointer is at least 16 and grows by at most one per step. -/
def pointerDisciplineB : List (ProcessorRow BFieldElement) → Bool
  | [] => true
  | r :: rs => decide (r.osp.val = OP_STACK_REG_COUNT) && ospChainB r.osp.val rs

/-- The claimed maximum clock cycle used by `pad`:
`self.data().len() as u64 - 1` (wrapping 64-bit subtraction). -/
def wrappedMaxClock (t : List (OpStackRow BFieldElement)) : ℕ :=
  wrappingSub64 t.length 1

/-- `iter().enumerate().find(...)` over the table rows: the index of the first
row satisfying the predicate. -/
def findTemplateIdx (p : OpStackRow BFieldElement → Bool) :
    List (OpStackRow BFieldElement) → Option ℕ
  | [] => none
  | r :: rs => if p r then some 0 else (findTemplateIdx p rs).map (· + 1)

/-- `slice::rotate_left(k)` for `k` at most the slice length. -/
def rotl {α : Type} (l : List α) (k : ℕ) : List α := l.drop k ++ l.take k

/-- The last step of building the padding rows in `pad` (source lines
123-129): when there is a last padding row and a row follows the insertion
point, recompute the last padding row's `InverseOfClkDiffMinusOne` from the
clock difference to that following row. -/
def fixLastPaddingRow (padding_rows : List (OpStackRow BFieldElement))
    (num_padding_rows : ℕ) (next? : Option (OpStackRow BFieldElement)) :
    List (OpStackRow BFieldElement) :=
  match padding_rows.getLast?, next? with
  | some lastRow, some next_row =>
    padding_rows.set (num_padding_rows - 1)
      { lastRow with inverseOfClkDiffMinusOne := (next_row.clk - lastRow.clk - 1)⁻¹ }
  | _, _ => padding_rows

/-- `<OpStackTable as Extendable>::pad` (source lines 100-136).  A panic is
modelled as `Except.error s` where `s` is the table contents at the moment of
the abort; successful completion is `Except.ok` of the padded table.  The
source panics when `padded_height - len` underflows (the subtraction happens
before the template search), and when no row carries the claimed maximum
clock; the final length assertion is also modelled. -/
def pad (t : List (OpStackRow BFieldElement)) (padded_height : ℕ) :
    Except (List (OpStackRow BFieldElement)) (List (OpStackRow BFieldElement)) :=
  let max_clock := wrappedMaxClock t
  if padded_height < t.length then Except.error t
  else
    let num_padding_rows := padded_height - t.length
    match findTemplateIdx (fun row => row.clk.val == max_clock) t with
    | none => Except.error t
    | some template_index =>
      let insertion_index := template_index + 1
      let template := t.getD template_index dRow
      let template' := { template with inverseOfClkDiffMinusOne := 0 }
      let t1 := t.set template_index template'
      let padding_rows := (List.range num_padding_rows).map
        (fun k => { template' with clk := template'.clk + ((k + 1 : ℕ) : BFieldElement) })
      let padding_rows' := fixLastPaddingRow padding_rows num_padding_rows (t1.get? insertion_index)
      let old_tail_length := t1.length - insertion_index
      let appended := t1 ++ padding_rows'
      let result :=
        appended.take insertion_index ++ rotl (appended.drop insertion_index) old_tail_length
      if result.length = padded_height then Except.ok result else Except.error result

/-- `<OpStackTable as Extendable>::get_padding_rows` (source lines 96-98):
the body is an unconditional `panic`, modelled as `none`.  The would-be return
type is the pair of an optional template index and a list of padding rows. -/
def get_padding_rows (_t : List (OpStackRow BFieldElement)) :
    Option (Option ℕ × List (List BFieldElement)) :=
  none

/-- The challenges consumed by the op-stack table (source struct
`OpStackTableChallenges`, lines 455-469), over the extension field `E`. -/
structure OpStackTableChallenges (E : Type) where
  processor_perm_indeterminate : E
  clk_weight : E
  ib1_weight : E
  osv_weight : E
  osp_weight : E
  all_clock_jump_differences_multi_perm_indeterminate : E
deriving DecidableEq

/-- Modelled from the spec: `PermArg::default_initial` (crate
`cross_table_arguments`, not among the verified sources).  The spec calls it a
protocol-wide constant, and the initial constraints of the source (both
running products are pinned by `rpcjd - one` and
`rppa - (indeterminate - compressed_row)` at row zero) force it to be one. -/
def default_initial {E : Type} [CommRing E] : E := 1

/-- One row of the op-stack extension table: the five lifted base columns
followed by the extension columns `RunningProductPermArg` and
`AllClockJumpDifferencesPermArg` (enumeration `OpStackExtTableColumn`). -/
structure ExtOpStackRow (E : Type) where
  clk : E
  ib1ShrinkStack : E
  osp : E
  osv : E
  inverseOfClkDiffMinusOne : E
  runningProductPermArg : E
  allClockJumpDifferencesPermArg : E
deriving DecidableEq

section Extension

variable {E : Type} [CommRing E] [DecidableEq E]

/-- Default extension row used with `List.getD`. -/
def dExtRow : ExtOpStackRow E := ⟨0, 0, 0, 0, 0, 0, 0⟩

/-- The row compression of `extend` (source line 367):
`clk * clk_w + ib1 * ib1_w + osp * osp_w + osv * osv_w` on the lifted row. -/
def compressedRow (lift : BFieldElement →+* E) (ch : OpStackTableChallenges E)
    (r : OpStackRow BFieldElement) : E :=
  lift r.clk * ch.clk_weight + lift r.ib1ShrinkStack * ch.ib1_weight
    + lift r.osp * ch.osp_weight + lift r.osv * ch.osv_weight

/-- The clock-jump-difference update of `extend` (source lines 375-385): the
accumulator gains the factor `indeterminate - lift (clk - prev.clk)` exactly
when a previous row exists, shares the `OSP` column with the current row, and
the lifted clock difference is not one. -/
def cjdStep (lift : BFieldElement →+* E) (ch : OpStackTableChallenges E)
    (prev : Option (OpStackRow BFieldElement)) (r : OpStackRow BFieldElement) (rj : E) : E :=
  match prev with
  | none => rj
  | some p =>
    if p.osp = r.osp then
      if lift (r.clk - p.clk) ≠ 1 then
        rj * (ch.all_clock_jump_differences_multi_perm_indeterminate - lift (r.clk - p.clk))
      else rj
    else rj

/-- The row-by-row loop of `extend` (source lines 349-391), with the running
product, the clock-jump-difference running product, and the previous row as
explicit state. -/
def extendLoop (lift : BFieldElement →+* E) (ch : OpStackTableChallenges E) :
    Option (OpStackRow BFieldElement) → E → E → List (OpStackRow BFieldElement) →
    List (ExtOpStackRow E)
  | _, _, _, [] => []
  | prev, rp, rj, r :: rs =>
    let rp' := rp * (ch.processor_perm_indeterminate - compressedRow lift ch r)
    let rj' := cjdStep lift ch prev r rj
    { clk := lift r.clk
      ib1ShrinkStack := lift r.ib1ShrinkStack
      osp := lift r.osp
      osv := lift r.osv
      inverseOfClkDiffMinusOne := lift r.inverseOfClkDiffMinusOne
      runningProductPermArg := rp'
      allClockJumpDifferencesPermArg := rj' } :: extendLoop lift ch (some r) rp' rj' rs

/-- `OpStackTable::extend` (source lines 344-396): lift every base row to the
extension field and append the two running-product columns, both seeded with
`default_initial`. -/
def extend (lift : BFieldElement →+* E) (ch : OpStackTableChallenges E)
    (rows : List (OpStackRow BFieldElement)) : List (ExtOpStackRow E) :=
  extendLoop lift ch none default_initial default_initial rows

end Extension

/-- The challenge identifiers of the op-stack table (source enum
`OpStackTableChallengeId`, lines 421-429). -/
inductive OpStackTableChallengeId where
  | ProcessorPermIndeterminate
  | ClkWeight
  | Ib1Weight
  | OsvWeight
  | OspWeight
  | AllClockJumpDifferencesMultiPermIndeterminate
deriving DecidableEq

/-- `<OpStackTableChallenges as TableChallenges>::get_challenge` (source lines
440-452). -/
def get_challenge {E : Type} (ch : OpStackTableChallenges E) :
    OpStackTableChallengeId → E
  | OpStackTableChallengeId.ProcessorPermIndeterminate => ch.processor_perm_indeterminate
  | OpStackTableChallengeId.ClkWeight => ch.clk_weight
  | OpStackTableChallengeId.Ib1Weight => ch.ib1_weight
  | OpStackTableChallengeId.OsvWeight => ch.osv_weight
  | OpStackTableChallengeId.OspWeight => ch.osp_weight
  | OpStackTableChallengeId.AllClockJumpDifferencesMultiPermIndeterminate =>
      ch.all_clock_jump_differences_multi_perm_indeterminate

/-- The full-width column enumeration of the op-stack table: the five base
columns followed by the two extension columns. -/
inductive OpStackColumn where
  | CLK
  | IB1ShrinkStack
  | OSP
  | OSV
  | InverseOfClkDiffMinusOne
  | RunningProductPermArg
  | AllClockJumpDifferencesPermArg
deriving DecidableEq

/-- `BASE_WIDTH` (source line 44): number of base columns. -/
def BASE_WIDTH : ℕ := 5

/-- `EXT_WIDTH` (source line 45): number of extension columns. -/
def EXT_WIDTH : ℕ := 2

/-- `FULL_WIDTH` (source line 46). -/
def FULL_WIDTH : ℕ := BASE_WIDTH + EXT_WIDTH

/-- The value of a full-width column in an extension-table row. -/
def columnValue {E : Type} (r : ExtOpStackRow E) : OpStackColumn → E
  | OpStackColumn.CLK => r.clk
  | OpStackColumn.IB1ShrinkStack => r.ib1ShrinkStack
  | OpStackColumn.OSP => r.osp
  | OpStackColumn.OSV => r.osv
  | OpStackColumn.InverseOfClkDiffMinusOne => r.inverseOfClkDiffMinusOne
  | OpStackColumn.RunningProductPermArg => r.runningProductPermArg
  | OpStackColumn.AllClockJumpDifferencesPermArg => r.allClockJumpDifferencesPermArg

/-- `DualRowIndicator`: a circuit input referring to the current or the next
row (module `constraint_circuit`, modelled from the spec: "a node is either a
leaf (a base-row input, a next-row input, a challenge, or a constant) or an
internal node"). -/
inductive DualRowIndicator where
  | CurrentRow (col : OpStackColumn)
  | NextRow (col : OpStackColumn)
deriving DecidableEq

/-- A constraint-circuit expression over the op-stack table's dual-row inputs
and challenges (module `constraint_circuit`, modelled from the spec; the
sharing of subexpressions in the source DAG is irrelevant to the evaluated
value, so the expression tree carries the same semantics). -/
inductive CircuitExpr where
  | b_constant (c : BFieldElement)
  | input (ind : DualRowIndicator)
  | challenge (id : OpStackTableChallengeId)
  | add (a b : CircuitExpr)
  | sub (a b : CircuitExpr)
  | mul (a b : CircuitExpr)
deriving DecidableEq

/-- Evaluate a circuit on a (current row, next row) pair of extension-table
rows under the given challenges; `b_constant` leaves are lifted to the
extension field. -/
def evalCircuit {E : Type} [CommRing E] (lift : BFieldElement →+* E)
    (ch : OpStackTableChallenges E) (curr next : ExtOpStackRow E) : CircuitExpr → E
  | CircuitExpr.b_constant c => lift c
  | CircuitExpr.input (DualRowIndicator.CurrentRow col) => columnValue curr col
  | CircuitExpr.input (DualRowIndicator.NextRow col) => columnValue next col
  | CircuitExpr.challenge id => get_challenge ch id
  | CircuitExpr.add a b => evalCircuit lift ch curr next a + evalCircuit lift ch curr next b
  | CircuitExpr.sub a b => evalCircuit lift ch curr next a - evalCircuit lift ch curr next b
  | CircuitExpr.mul a b => evalCircuit lift ch curr next a * evalCircuit lift ch curr next b

/-- `ExtOpStackTable::ext_transition_constraints_as_circuits` (source lines
187-272): the six transition-constraint circuits, translated term by term. -/
def ext_transition_constraints_as_circuits : List CircuitExpr :=
  let one := CircuitExpr.b_constant 1
  let clk := CircuitExpr.input (DualRowIndicator.CurrentRow OpStackColumn.CLK)
  let ib1_shrink_stack := CircuitExpr.input (DualRowIndicator.CurrentRow OpStackColumn.IB1ShrinkStack)
  let osp := CircuitExpr.input (DualRowIndicator.CurrentRow OpStackColumn.OSP)
  let osv := CircuitExpr.input (DualRowIndicator.CurrentRow OpStackColumn.OSV)
  let clk_di := CircuitExpr.input (DualRowIndicator.CurrentRow OpStackColumn.InverseOfClkDiffMinusOne)
  let rpcjd := CircuitExpr.input (DualRowIndicator.CurrentRow OpStackColumn.AllClockJumpDifferencesPermArg)
  let rppa := CircuitExpr.input (DualRowIndicator.CurrentRow OpStackColumn.RunningProductPermArg)
  let clk_next := CircuitExpr.input (DualRowIndicator.NextRow OpStackColumn.CLK)
  let ib1_shrink_stack_next := CircuitExpr.input (DualRowIndicator.NextRow OpStackColumn.IB1ShrinkStack)
  let osp_next := CircuitExpr.input (DualRowIndicator.NextRow OpStackColumn.OSP)
  let osv_next := CircuitExpr.input (DualRowIndicator.NextRow OpStackColumn.OSV)
  let rpcjd_next := CircuitExpr.input (DualRowIndicator.NextRow OpStackColumn.AllClockJumpDifferencesPermArg)
  let rppa_next := CircuitExpr.input (DualRowIndicator.NextRow OpStackColumn.RunningProductPermArg)
  let osp_increases_by_1_or_does_not_change :=
    CircuitExpr.mul (CircuitExpr.sub osp_next (CircuitExpr.add osp one))
      (CircuitExpr.sub osp_next osp)
  let osp_increases_by_1_or_osv_does_not_change_or_shrink_stack :=
    CircuitExpr.mul
      (CircuitExpr.mul (CircuitExpr.sub osp_next (CircuitExpr.add osp one))
        (CircuitExpr.sub osv_next osv))
      (CircuitExpr.sub one ib1_shrink_stack)
  let osp_changes := CircuitExpr.sub (CircuitExpr.sub osp_next osp) one
  let clk_diff_minus_one := CircuitExpr.sub (CircuitExpr.sub clk_next clk) one
  let clkdi_is_cdmo_inverse := CircuitExpr.sub (CircuitExpr.mul clk_di clk_diff_minus_one) one
  let clk_di_is_zero_or_cdmo_inverse_or_osp_changes :=
    CircuitExpr.mul (CircuitExpr.mul osp_changes clkdi_is_cdmo_inverse) clk_di
  let cdmo_is_zero_or_clkdi_inverse_or_osp_changes :=
    CircuitExpr.mul (CircuitExpr.mul osp_changes clkdi_is_cdmo_inverse) clk_diff_minus_one
  let beta :=
    CircuitExpr.challenge OpStackTableChallengeId.AllClockJumpDifferencesMultiPermIndeterminate
  let cjdrp_updates_correctly :=
    CircuitExpr.add
      (CircuitExpr.add
        (CircuitExpr.mul
          (CircuitExpr.mul (CircuitExpr.sub (CircuitExpr.sub clk_next clk) one)
            (CircuitExpr.add (CircuitExpr.sub one osp_next) osp))
          (CircuitExpr.sub rpcjd_next
            (CircuitExpr.mul rpcjd (CircuitExpr.add (CircuitExpr.sub beta clk_next) clk))))
        (CircuitExpr.mul
          (CircuitExpr.sub one
            (CircuitExpr.mul (CircuitExpr.sub (CircuitExpr.sub clk_next clk) one) clk_di))
          (CircuitExpr.sub rpcjd_next rpcjd)))
      (CircuitExpr.mul (CircuitExpr.sub osp_next osp) (CircuitExpr.sub rpcjd_next rpcjd))
  let alpha := CircuitExpr.challenge OpStackTableChallengeId.ProcessorPermIndeterminate
  let compressed_row :=
    CircuitExpr.add
      (CircuitExpr.add
        (CircuitExpr.add
          (CircuitExpr.mul (CircuitExpr.challenge OpStackTableChallengeId.ClkWeight) clk_next)
          (CircuitExpr.mul (CircuitExpr.challenge OpStackTableChallengeId.Ib1Weight)
            ib1_shrink_stack_next))
        (CircuitExpr.mul (CircuitExpr.challenge OpStackTableChallengeId.OspWeight) osp_next))
      (CircuitExpr.mul (CircuitExpr.challenge OpStackTableChallengeId.OsvWeight) osv_next)
  let rppa_updates_correctly :=
    CircuitExpr.sub rppa_next (CircuitExpr.mul rppa (CircuitExpr.sub alpha compressed_row))
  [ osp_increases_by_1_or_does_not_change,
    osp_increases_by_1_or_osv_does_not_change_or_shrink_stack,
    clk_di_is_zero_or_cdmo_inverse_or_osp_changes,
    cdmo_is_zero_or_clkdi_inverse_or_osp_changes,
    cjdrp_updates_correctly,
    rppa_updates_correctly ]

/-- The identity embedding, used to run the generic extension code on the base
field itself for concrete evaluations. -/
def idHom : BFieldElement →+* BFieldElement := RingHom.id BFieldElement

/-- A concrete challenge vector for concrete evaluations. -/
def chB : OpStackTableChallenges BFieldElement := ⟨2, 3, 4, 5, 6, 7⟩

/-- Claim C9: for every op-stack table, the trait method `get_padding_rows`
panics unconditionally (modelled as returning `none`); padding must go through
the direct `pad` implementation. -/
theorem get_padding_rows_always_panics (t : List (OpStackRow BFieldElement)) :
    get_padding_rows t = none :=
  rfl

/-- Claim C7: `extend` is deterministic — two calls on equal base rows and
equal challenges return extension tables that are equal in every entry. -/
theorem extend_deterministic {E : Type} [CommRing E] [DecidableEq E]
    (lift : BFieldElement →+* E) (ch₁ ch₂ : OpStackTableChallenges E)
    (rows₁ rows₂ : List (OpStackRow BFieldElement))
    (hrows : rows₁ = rows₂) (hch : ch₁ = ch₂) :
    extend lift ch₁ rows₁ = extend lift ch₂ rows₂ := by
  rw [hrows, hch]

/-- Witness for claim C7 at a concrete input. -/
theorem extend_deterministic_witness :
    ([⟨0, 0, 16, 0, 0⟩, ⟨1, 0, 17, 2, 0⟩] : List (OpStackRow BFieldElement))
        = [⟨0, 0, 16, 0, 0⟩, ⟨1, 0, 17, 2, 0⟩] ∧
      chB = chB ∧
      extend idHom chB [⟨0, 0, 16, 0, 0⟩, ⟨1, 0, 17, 2, 0⟩]
        = extend idHom chB [⟨0, 0, 16, 0, 0⟩, ⟨1, 0, 17, 2, 0⟩] :=
  ⟨rfl, rfl, extend_deterministic idHom chB chB _ _ rfl rfl⟩

/-- Claim C6: for every assignment of current-row and next-row values over the
extension field, the first two transition constraints both vanish exactly when
the op-stack pointer stays or increases by one, and, whenever it does not
increase, the shrink-stack indicator is set or the op-stack value is carried
forward. -/
theorem transition_constraints_first_two_iff {E : Type} [Field E]
    (lift : BFieldElement →+* E) (ch : OpStackTableChallenges E)
    (curr next : ExtOpStackRow E) :
    (evalCircuit lift ch curr next
        (ext_transition_constraints_as_circuits.getD 0 (CircuitExpr.b_constant 0)) = 0 ∧
      evalCircuit lift ch curr next
        (ext_transition_constraints_as_circuits.getD 1 (CircuitExpr.b_constant 0)) = 0) ↔
      ((next.osp = curr.osp ∨ next.osp = curr.osp + 1) ∧
        (next.osp = curr.osp + 1 ∨ next.osv = curr.osv ∨ curr.ib1ShrinkStack = 1)) := by
  simp only [ext_transition_constraints_as_circuits, List.getD_cons_zero, List.getD_cons_succ,
    evalCircuit, columnValue, map_one, mul_eq_zero, sub_eq_zero]
  constructor
  · rintro ⟨h1, h2⟩
    constructor
    · rcases h1 with h | h
      · exact Or.inr h
      · exact Or.inl h
    · rcases h2 with (h | h) | h
      · exact Or.inl h
      · exact Or.inr (Or.inl h)
      · exact Or.inr (Or.inr h.symm)
  · rintro ⟨h1, h2⟩
    constructor
    · rcases h1 with h | h
      · exact Or.inr h
      · exact Or.inl h
    · rcases h2 with h | h | h
      · exact Or.inl (Or.inl h)
      · exact Or.inl (Or.inr h)
      · exact Or.inr h.symm

lemma findTemplateIdx_eq_none_of_all (p : OpStackRow BFieldElement → Bool) :
    ∀ l : List (OpStackRow BFieldElement), (∀ r ∈ l, p r = false) →
      findTemplateIdx p l = none := by
  intro l
  induction l with
  | nil => intro _; rfl
  | cons a l ih =>
    intro hall
    have ha := hall a (List.mem_cons_self a l)
    simp only [findTemplateIdx, ha, if_false, Bool.false_eq_true]
    rw [ih (fun r hr => hall r (List.mem_cons_of_mem a hr))]
    rfl

lemma findTemplateIdx_isSome_of_exists (p : OpStackRow BFieldElement → Bool) :
    ∀ l : List (OpStackRow BFieldElement), (∃ r ∈ l, p r = true) →
      ∃ i, findTemplateIdx p l = some i := by
  intro l
  induction l with
  | nil => rintro ⟨r, hr, _⟩; exact absurd hr (List.not_mem_nil r)
  | cons a l ih =>
    rintro ⟨r, hr, hp⟩
    by_cases hpa : p a
    · exact ⟨0, by simp [findTemplateIdx, hpa]⟩
    · rcases List.mem_cons.mp hr with rfl | hr'
      · exact absurd hp hpa
      · obtain ⟨i, hi⟩ := ih ⟨r, hr', hp⟩
        exact ⟨i + 1, by simp [findTemplateIdx, hpa, hi]⟩

lemma findTemplateIdx_lt_length (p : OpStackRow BFieldElement → Bool) :
    ∀ (l : List (OpStackRow BFieldElement)) (i : ℕ),
      findTemplateIdx p l = some i → i < l.length := by
  intro l
  induction l with
  | nil => intro i h; exact absurd h (by simp [findTemplateIdx])
  | cons a l ih =>
    intro i h
    rw [findTemplateIdx] at h
    by_cases hpa : p a
    · rw [if_pos hpa] at h
      cases h
      simp
    · rw [if_neg hpa] at h
      rcases hfind : findTemplateIdx p l with _ | j <;> rw [hfind] at h
      · simp at h
      · have hi : i = j + 1 := by
          simpa using h.symm
        have := ih j hfind
        simp only [List.length_cons]
        omega

lemma fixLastPaddingRow_length (padding_rows : List (OpStackRow BFieldElement))
    (num : ℕ) (next? : Option (OpStackRow BFieldElement)) :
    (fixLastPaddingRow padding_rows num next?).length = padding_rows.length := by
  unfold fixLastPaddingRow
  rcases padding_rows.getLast? with _ | lastRow <;> rcases next? with _ | next_row <;>
    simp [List.length_set]

lemma rotl_length {α : Type} (l : List α) (k : ℕ) : (rotl l k).length = l.length := by
  simp only [rotl, List.length_append, List.length_drop, List.length_take]
  omega

/-- Claim C4: `pad` aborts when no row of the table carries the claimed
maximum clock value, and on that error path the table is unchanged (the error
payload is the state of the table at the abort, and it equals the input). -/
theorem pad_aborts_without_max_clk_row (t : List (OpStackRow BFieldElement))
    (padded_height : ℕ) (hno : ∀ r ∈ t, r.clk.val ≠ wrappedMaxClock t) :
    pad t padded_height = Except.error t := by
  unfold pad
  by_cases hlt : padded_height < t.length
  · rw [if_pos hlt]
  · rw [if_neg hlt]
    have hnone : findTemplateIdx (fun row => row.clk.val == wrappedMaxClock t) t = none := by
      apply findTemplateIdx_eq_none_of_all
      intro r hr
      simpa using hno r hr
    rw [hnone]

/-- Witness for claim C4 at a concrete input: a one-row table whose clock is 5
while the claimed maximum clock is 0. -/
theorem pad_aborts_without_max_clk_row_witness :
    (∀ r ∈ ([⟨5, 0, 16, 0, 0⟩] : List (OpStackRow BFieldElement)),
        r.clk.val ≠ wrappedMaxClock [⟨5, 0, 16, 0, 0⟩]) ∧
      pad [⟨5, 0, 16, 0, 0⟩] 4 = Except.error [⟨5, 0, 16, 0, 0⟩] :=
  ⟨by decide, pad_aborts_without_max_clk_row _ 4 (by decide)⟩

/-- Counterexample to claim C2 as stated: a one-row table whose single clock
value is 5 satisfies the claim's hypotheses (the target height 2 is a power of
two and at least the height 1), yet `pad` aborts without producing a table of
height 2 — it leaves the one-row table unchanged, so no table of height 2
exists after the call. -/
theorem pad_missing_template_counterexample :
    (∃ k, (2 : ℕ) = 2 ^ k) ∧
      ([⟨5, 0, 16, 0, 0⟩] : List (OpStackRow BFieldElement)).length ≤ 2 ∧
      pad [⟨5, 0, 16, 0, 0⟩] 2 = Except.error [⟨5, 0, 16, 0, 0⟩] ∧
      ([⟨5, 0, 16, 0, 0⟩] : List (OpStackRow BFieldElement)).length ≠ 2 :=
  ⟨⟨1, rfl⟩, by decide, rfl, by decide⟩

/-- Claim C2 (amended): for every op-stack base table that contains a row
carrying the claimed maximum clock value, and every power of two at least the
table's height, `pad` completes and the padded table's height equals the
target exactly. -/
theorem pad_height_eq_target (t : List (OpStackRow BFieldElement)) (padded_height : ℕ)
    (hpow : ∃ k, padded_height = 2 ^ k) (hle : t.length ≤ padded_height)
    (htemp : ∃ r ∈ t, r.clk.val = wrappedMaxClock t) :
    ∃ t2, pad t padded_height = Except.ok t2 ∧ t2.length = padded_height := by
  obtain ⟨r, hr, hrv⟩ := htemp
  obtain ⟨idx, hidx⟩ :=
    findTemplateIdx_isSome_of_exists (fun row => row.clk.val == wrappedMaxClock t) t
      ⟨r, hr, by simpa using hrv⟩
  have hlt := findTemplateIdx_lt_length _ t idx hidx
  have hnl : ¬ padded_height < t.length := by omega
  simp only [pad, hnl, if_false, hidx]
  split
  · rename_i hcond
    exact ⟨_, rfl, hcond⟩
  · rename_i hcond
    exfalso
    apply hcond
    simp only [List.length_append, List.length_take, List.length_drop, rotl_length,
      fixLastPaddingRow_length, List.length_set, List.length_map, List.length_range]
    omega

/-- The accumulation condition of the clock-jump-difference running product,
read off the source (lines 375-385): the two adjacent base rows share the
`OSP` column and the lifted clock difference is not one. -/
def cjdAccumulates {E : Type} [CommRing E] [DecidableEq E] (lift : BFieldElement →+* E)
    (p r : OpStackRow BFieldElement) : Prop :=
  p.osp = r.osp ∧ lift (r.clk - p.clk) ≠ 1

instance {E : Type} [CommRing E] [DecidableEq E] (lift : BFieldElement →+* E)
    (p r : OpStackRow BFieldElement) : Decidable (cjdAccumulates lift p r) :=
  inferInstanceAs (Decidable (_ ∧ _))

section ExtensionLemmas

variable {E : Type} [CommRing E] [DecidableEq E] (lift : BFieldElement →+* E)
variable (ch : OpStackTableChallenges E)

lemma cjdStep_some (p r : OpStackRow BFieldElement) (rj : E) :
    cjdStep lift ch (some p) r rj =
      if cjdAccumulates lift p r then
        rj * (ch.all_clock_jump_differences_multi_perm_indeterminate - lift (r.clk - p.clk))
      else rj := by
  simp only [cjdStep]
  by_cases hosp : p.osp = r.osp
  · rw [if_pos hosp]
    by_cases hdiff : lift (r.clk - p.clk) ≠ 1
    · rw [if_pos hdiff, if_pos ⟨hosp, hdiff⟩]
    · rw [if_neg hdiff, if_neg (fun hc => hdiff hc.2)]
  · rw [if_neg hosp, if_neg (fun hc => hosp hc.1)]

lemma extendLoop_cjd_adjacent :
    ∀ (rows : List (OpStackRow BFieldElement)) (prev : Option (OpStackRow BFieldElement))
      (rp rj : E) (i : ℕ), i + 1 < rows.length →
      ((extendLoop lift ch prev rp rj rows).getD (i + 1) dExtRow).allClockJumpDifferencesPermArg =
        if cjdAccumulates lift (rows.getD i dRow) (rows.getD (i + 1) dRow) then
          ((extendLoop lift ch prev rp rj rows).getD i dExtRow).allClockJumpDifferencesPermArg *
            (ch.all_clock_jump_differences_multi_perm_indeterminate -
              lift ((rows.getD (i + 1) dRow).clk - (rows.getD i dRow).clk))
        else
          ((extendLoop lift ch prev rp rj rows).getD i dExtRow).allClockJumpDifferencesPermArg := by
  intro rows
  induction rows with
  | nil => intro prev rp rj i h; simp at h
  | cons a rest ih =>
    intro prev rp rj i h
    cases rest with
    | nil => simp at h
    | cons b rest' =>
      cases i with
      | zero =>
        simp only [extendLoop, List.getD_cons_zero, List.getD_cons_succ]
        exact cjdStep_some lift ch a b (cjdStep lift ch prev a rj)
      | succ j =>
        have h' : j + 1 < (b :: rest').length := by
          simp only [List.length_cons] at h ⊢
          omega
        have hj := ih (some a)
          (rp * (ch.processor_perm_indeterminate - compressedRow lift ch a))
          (cjdStep lift ch prev a rj) j h'
        simpa only [extendLoop, List.getD_cons_succ] using hj

/-- Claim C1 (amended): in `extend`, for every pair of adjacent rows, the
clock-jump-difference running product gains the factor
`indeterminate - lift (curr.clk - prev.clk)` exactly when the two rows share
the `OSP` column and the lifted clock difference is not equal to one; in every
other case the accumulator value at the current row equals the value at the
previous row. -/
theorem extend_cjd_accumulation_characterized
    (rows : List (OpStackRow BFieldElement)) (i : ℕ) (h : i + 1 < rows.length) :
    ((extend lift ch rows).getD (i + 1) dExtRow).allClockJumpDifferencesPermArg =
      if cjdAccumulates lift (rows.getD i dRow) (rows.getD (i + 1) dRow) then
        ((extend lift ch rows).getD i dExtRow).allClockJumpDifferencesPermArg *
          (ch.all_clock_jump_differences_multi_perm_indeterminate -
            lift ((rows.getD (i + 1) dRow).clk - (rows.getD i dRow).clk))
      else
        ((extend lift ch rows).getD i dExtRow).allClockJumpDifferencesPermArg :=
  extendLoop_cjd_adjacent lift ch rows none default_initial default_initial i h

lemma extendLoop_base_fields :
    ∀ (rows : List (OpStackRow BFieldElement)) (prev : Option (OpStackRow BFieldElement))
      (rp rj : E) (i : ℕ), i < rows.length →
      ((extendLoop lift ch prev rp rj rows).getD i dExtRow).clk
          = lift ((rows.getD i dRow).clk) ∧
        ((extendLoop lift ch prev rp rj rows).getD i dExtRow).ib1ShrinkStack
          = lift ((rows.getD i dRow).ib1ShrinkStack) ∧
        ((extendLoop lift ch prev rp rj rows).getD i dExtRow).osp
          = lift ((rows.getD i dRow).osp) ∧
        ((extendLoop lift ch prev rp rj rows).getD i dExtRow).osv
          = lift ((rows.getD i dRow).osv) ∧
        ((extendLoop lift ch prev rp rj rows).getD i dExtRow).inverseOfClkDiffMinusOne
          = lift ((rows.getD i dRow).inverseOfClkDiffMinusOne) := by
  intro rows
  induction rows with
  | nil => intro prev rp rj i h; simp at h
  | cons a rest ih =>
    intro prev rp rj i h
    cases i with
    | zero => simp [extendLoop]
    | succ j =>
      have h' : j < rest.length := by
        simp only [List.length_cons] at h
        omega
      have hj := ih (some a)
        (rp * (ch.processor_perm_indeterminate - compressedRow lift ch a))
        (cjdStep lift ch prev a rj) j h'
      simpa only [extendLoop, List.getD_cons_succ] using hj

end ExtensionLemmas

/-- The entries of an extension-table row, in column order. -/
def extRowToList {E : Type} (r : ExtOpStackRow E) : List E :=
  [r.clk, r.ib1ShrinkStack, r.osp, r.osv, r.inverseOfClkDiffMinusOne,
    r.runningProductPermArg, r.allClockJumpDifferencesPermArg]

/-- The entries of a base-table row, in column order. -/
def baseRowToList {F : Type} (r : OpStackRow F) : List F :=
  [r.clk, r.ib1ShrinkStack, r.osp, r.osv, r.inverseOfClkDiffMinusOne]

/-- Claim C8: every row of the extension table returned by `extend` starts
with the `BASE_WIDTH` lifted entries of the corresponding input row.  (The
input table itself is untouched: `extend` only reads it, which the functional
embedding renders structurally.) -/
theorem extend_base_columns_lifted {E : Type} [CommRing E] [DecidableEq E]
    (lift : BFieldElement →+* E) (ch : OpStackTableChallenges E)
    (rows : List (OpStackRow BFieldElement)) (i : ℕ) (h : i < rows.length) :
    (extRowToList ((extend lift ch rows).getD i dExtRow)).take BASE_WIDTH
      = (baseRowToList (rows.getD i dRow)).map lift := by
  obtain ⟨h1, h2, h3, h4, h5⟩ :=
    extendLoop_base_fields lift ch rows none default_initial default_initial i h
  show [_, _, _, _, _] = _
  simp only [extend]
  rw [h1, h2, h3, h4, h5]
  rfl

/-- Witness for claim C8 at a concrete input. -/
theorem extend_base_columns_lifted_witness :
    0 < ([⟨4, 1, 17, 9, 3⟩] : List (OpStackRow BFieldElement)).length ∧
      (extRowToList ((extend idHom chB [⟨4, 1, 17, 9, 3⟩]).getD 0 dExtRow)).take BASE_WIDTH
        = (baseRowToList (([⟨4, 1, 17, 9, 3⟩] :
            List (OpStackRow BFieldElement)).getD 0 dRow)).map idHom :=
  ⟨by decide, extend_base_columns_lifted idHom chB [⟨4, 1, 17, 9, 3⟩] 0 (by decide)⟩

/-- The two-row table refuting claim C1 as stated: adjacent rows with equal
`OSP` and equal clocks (clock difference zero, hence not two or greater). -/
def rowsCjdZero : List (OpStackRow BFieldElement) :=
  [⟨7, 0, 16, 0, 0⟩, ⟨7, 0, 16, 0, 0⟩]

/-- Counterexample to claim C1 as stated: on two adjacent rows with equal
`OSP` and clock difference zero — which does not exceed one — the running
product nevertheless changes (the code only tests the difference against
one), so "in every other case the accumulator value at the current row equals
the value at the previous row" fails. -/
theorem extend_cjd_zero_diff_counterexample :
    (rowsCjdZero.getD 0 dRow).osp = (rowsCjdZero.getD 1 dRow).osp ∧
      ((rowsCjdZero.getD 1 dRow).clk - (rowsCjdZero.getD 0 dRow).clk).val < 2 ∧
      ((extend idHom chB rowsCjdZero).getD 1 dExtRow).allClockJumpDifferencesPermArg ≠
        ((extend idHom chB rowsCjdZero).getD 0 dExtRow).allClockJumpDifferencesPermArg := by
  decide

/-- A two-row table on which the clock-jump-difference product does
accumulate a factor. -/
def rowsCjdAcc : List (OpStackRow BFieldElement) :=
  [⟨0, 0, 16, 0, 0⟩, ⟨3, 0, 16, 0, 0⟩]

/-- Witness for the amended claim C1 at a concrete input. -/
theorem extend_cjd_accumulation_characterized_witness :
    0 + 1 < rowsCjdAcc.length ∧
      ((extend idHom chB rowsCjdAcc).getD (0 + 1) dExtRow).allClockJumpDifferencesPermArg =
        if cjdAccumulates idHom (rowsCjdAcc.getD 0 dRow) (rowsCjdAcc.getD (0 + 1) dRow) then
          ((extend idHom chB rowsCjdAcc).getD 0 dExtRow).allClockJumpDifferencesPermArg *
            (chB.all_clock_jump_differences_multi_perm_indeterminate -
              idHom ((rowsCjdAcc.getD (0 + 1) dRow).clk - (rowsCjdAcc.getD 0 dRow).clk))
        else
          ((extend idHom chB rowsCjdAcc).getD 0 dExtRow).allClockJumpDifferencesPermArg :=
  ⟨by decide, extend_cjd_accumulation_characterized idHom chB rowsCjdAcc 0 (by decide)⟩

lemma wrappingSub64_eq_sub (a b : ℕ) (hba : b ≤ a) (ha : a < 2 ^ 64) :
    wrappingSub64 a b = a - b := by
  unfold wrappingSub64
  have hb : b ≤ 2 ^ 64 := by omega
  have hsplit : a + (2 ^ 64 - b) = (a - b) + 2 ^ 64 := by omega
  rw [hsplit, Nat.add_mod_right, Nat.mod_eq_of_lt (by omega)]

lemma buildBuckets_eq_none_iff :
    ∀ (rs : List (ProcessorRow BFieldElement))
      (bs : List (List (BFieldElement × BFieldElement × BFieldElement))),
      buildBuckets rs bs = none ↔ scanPanicB bs.length rs = true := by
  intro rs
  induction rs with
  | nil => intro bs; simp [buildBuckets, scanPanicB]
  | cons r rs ih =>
    intro bs
    simp only [buildBuckets, scanPanicB]
    by_cases h1 : wrappingSub64 r.osp.val OP_STACK_REG_COUNT < bs.length
    · rw [if_pos h1, if_neg (by omega : ¬ bs.length <
        wrappingSub64 r.osp.val OP_STACK_REG_COUNT), if_neg (by omega :
        ¬ wrappingSub64 r.osp.val OP_STACK_REG_COUNT = bs.length)]
      rw [ih]
      rw [List.length_set]
    · rw [if_neg h1]
      by_cases h2 : wrappingSub64 r.osp.val OP_STACK_REG_COUNT = bs.length
      · rw [if_pos h2, if_neg (by omega : ¬ bs.length <
          wrappingSub64 r.osp.val OP_STACK_REG_COUNT), if_pos h2]
        rw [ih]
        simp
      · rw [if_neg h2, if_pos (by omega : bs.length <
          wrappingSub64 r.osp.val OP_STACK_REG_COUNT)]
        simp

lemma flattenFrom_length :
    ∀ (bs : List (List (BFieldElement × BFieldElement × BFieldElement))) (idx : ℕ),
      (flattenFrom idx bs).length = (bs.map List.length).sum := by
  intro bs
  induction bs with
  | nil => intro idx; rfl
  | cons bucket rest ih =>
    intro idx
    simp [flattenFrom, ih]

lemma sum_lengths_set (bs : List (List α)) :
    ∀ (m : ℕ) (x : α), m < bs.length →
      ((bs.set m (bs.getD m [] ++ [x])).map List.length).sum
        = (bs.map List.length).sum + 1 := by
  induction bs with
  | nil => intro m x h; simp at h
  | cons bucket rest ih =>
    intro m x h
    cases m with
    | zero => simp [List.getD_cons_zero]; omega
    | succ j =>
      have hj : j < rest.length := by
        simp only [List.length_cons] at h
        omega
      simp only [List.set_cons_succ, List.getD_cons_succ, List.map_cons, List.sum_cons,
        ih j x hj]
      omega

lemma buildBuckets_sum_lengths :
    ∀ (rs : List (ProcessorRow BFieldElement))
      (bs bs' : List (List (BFieldElement × BFieldElement × BFieldElement))),
      buildBuckets rs bs = some bs' →
      (bs'.map List.length).sum = (bs.map List.length).sum + rs.length := by
  intro rs
  induction rs with
  | nil =>
    intro bs bs' h
    simp only [buildBuckets, Option.some.injEq] at h
    subst h
    simp
  | cons r rs ih =>
    intro bs bs' h
    simp only [buildBuckets] at h
    by_cases h1 : wrappingSub64 r.osp.val OP_STACK_REG_COUNT < bs.length
    · rw [if_pos h1] at h
      have := ih _ _ h
      rw [this, sum_lengths_set bs _ _ h1]
      simp only [List.length_cons]
      omega
    · rw [if_neg h1] at h
      by_cases h2 : wrappingSub64 r.osp.val OP_STACK_REG_COUNT = bs.length
      · rw [if_pos h2] at h
        have := ih _ _ h
        rw [this]
        simp only [List.map_append, List.sum_append, List.length_cons, List.map_cons,
          List.sum_cons, List.map_nil, List.sum_nil, List.length_nil]
        omega
      · rw [if_neg h2] at h
        exact absurd h (by simp)

lemma fill_trace_eq_none_iff (aet : List (ProcessorRow BFieldElement))
    (dest : List (OpStackRow BFieldElement)) :
    fill_trace aet dest = none ↔
      scanPanicB 0 aet = true ∨ dest.length < aet.length ∨ aet = [] := by
  unfold fill_trace
  rcases hb : buildBuckets aet [] with _ | buckets
  · have hscan : scanPanicB 0 aet = true := by
      have := (buildBuckets_eq_none_iff aet []).mp hb
      simpa using this
    simp [hscan]
  · have hscan : scanPanicB 0 aet = false := by
      by_contra hc
      have : scanPanicB 0 aet = true := by
        revert hc
        cases scanPanicB 0 aet <;> simp
      have := (buildBuckets_eq_none_iff aet []).mpr (by simpa using this)
      rw [hb] at this
      exact absurd this (by simp)
    have hflat : (flattenFrom 0 buckets).length = aet.length := by
      rw [flattenFrom_length]
      have := buildBuckets_sum_lengths aet [] buckets hb
      simpa using this
    simp only [hflat]
    by_cases hd : dest.length < aet.length
    · simp [hd, hscan]
    · rw [if_neg hd, if_neg (by simp)]
      by_cases hz : aet.length = 0
      · have haet : aet = [] := List.length_eq_zero.mp hz
        simp [hz, haet, hscan]
      · have haet : aet ≠ [] := fun hnil => hz (by rw [hnil]; rfl)
        simp [hz, hscan, hd, haet]

lemma scanPanicB_false_of_chain :
    ∀ (rs : List (ProcessorRow BFieldElement)) (prevOsp count : ℕ),
      OP_STACK_REG_COUNT ≤ prevOsp → prevOsp - OP_STACK_REG_COUNT < count →
      ospChainB prevOsp rs = true → scanPanicB count rs = false := by
  intro rs
  induction rs with
  | nil => intro prevOsp count _ _ _; rfl
  | cons r rs ih =>
    intro prevOsp count h16 hcount hchain
    simp only [ospChainB, Bool.and_eq_true, decide_eq_true_eq] at hchain
    obtain ⟨⟨hr16, hgrow⟩, hrest⟩ := hchain
    have hrlt : r.osp.val < 2 ^ 64 :=
      lt_trans (ZMod.val_lt r.osp) (by decide)
    have hm : wrappingSub64 r.osp.val OP_STACK_REG_COUNT
        = r.osp.val - OP_STACK_REG_COUNT :=
      wrappingSub64_eq_sub _ _ hr16 hrlt
    simp only [scanPanicB, hm]
    rw [if_neg (by unfold OP_STACK_REG_COUNT at *; omega)]
    apply ih r.osp.val _ hr16 _ hrest
    by_cases heq : r.osp.val - OP_STACK_REG_COUNT = count
    · rw [if_pos heq]
      omega
    · rw [if_neg heq]
      unfold OP_STACK_REG_COUNT at *
      omega

/-- Claim C3 (amended): `fill_trace` panics exactly when the destination has
fewer rows than the trace, the trace is empty, or scanning the processor rows
in cycle order reaches a row whose pointer value minus 16 — as the wrapping
64-bit subtraction computed by the code — exceeds the number of buckets
created so far; and a trace whose pointer starts at 16, never drops below 16,
and grows by at most one per step never triggers the bucket panic. -/
theorem fill_trace_panic_characterized (aet : List (ProcessorRow BFieldElement))
    (dest : List (OpStackRow BFieldElement)) :
    (fill_trace aet dest = none ↔
        scanPanicB 0 aet = true ∨ dest.length < aet.length ∨ aet = []) ∧
      (aet ≠ [] → aet.length ≤ dest.length → pointerDisciplineB aet = true →
        ∃ res, fill_trace aet dest = some res) := by
  refine ⟨fill_trace_eq_none_iff aet dest, ?_⟩
  intro hne hlen hdisc
  have hscan : scanPanicB 0 aet = false := by
    cases aet with
    | nil => exact absurd rfl hne
    | cons r rs =>
      simp only [pointerDisciplineB, Bool.and_eq_true, decide_eq_true_eq] at hdisc
      obtain ⟨hval, hchain⟩ := hdisc
      rw [hval] at hchain
      simp only [scanPanicB, hval]
      have h0 : wrappingSub64 OP_STACK_REG_COUNT OP_STACK_REG_COUNT = 0 := by decide
      rw [h0, if_neg (by omega), if_pos rfl]
      exact scanPanicB_false_of_chain rs OP_STACK_REG_COUNT 1 (le_refl _) (by decide) hchain
  rcases hres : fill_trace aet dest with _ | res
  · have := (fill_trace_eq_none_iff aet dest).mp hres
    rcases this with h | h | h
    · rw [hscan] at h; exact absurd h (by simp)
    · omega
    · exact absurd h hne
  · exact ⟨res, rfl⟩

/-- The one-row trace refuting the second half of claim C3 as stated: its
pointer starts at 17. -/
def aetOsp17 : List (ProcessorRow BFieldElement) := [⟨0, 0, 17, 0⟩]

/-- Counterexample to claim C3 as stated: a one-row trace whose pointer is 17
vacuously grows by at most one per step (there is no step), yet `fill_trace`
panics on it, because already the first row asks for a bucket one past the
zero buckets created so far. -/
theorem fill_trace_growth_counterexample :
    fill_trace aetOsp17 [dRow] = none ∧
      List.Chain' (fun a b : ProcessorRow BFieldElement => b.osp.val ≤ a.osp.val + 1)
        aetOsp17 :=
  ⟨rfl, List.chain'_singleton _⟩

/-- A disciplined two-row trace for the C3 witness. -/
def aetGood : List (ProcessorRow BFieldElement) := [⟨0, 0, 16, 5⟩, ⟨1, 0, 17, 6⟩]

/-- Witness for the amended claim C3 at a concrete input. -/
theorem fill_trace_panic_characterized_witness :
    (aetGood ≠ [] ∧ aetGood.length ≤ ([dRow, dRow] : List _).length ∧
        pointerDisciplineB aetGood = true) ∧
      ∃ res, fill_trace aetGood [dRow, dRow] = some res :=
  ⟨⟨by decide, by decide, by decide⟩,
    (fill_trace_panic_characterized aetGood [dRow, dRow]).2 (by decide) (by decide) (by decide)⟩

/-- The four-cycle trace of the spec's concrete scenario: clocks 0,1,2,3,
pointers 16,17,17,16, shrink bits 0,0,1,1. -/
def aetScenario : List (ProcessorRow BFieldElement) :=
  [⟨0, 0, 16, 0⟩, ⟨1, 0, 17, 0⟩, ⟨2, 1, 17, 0⟩, ⟨3, 1, 16, 0⟩]

/-- A zero-initialised four-row destination for the scenario. -/
def destScenario : List (OpStackRow BFieldElement) := [dRow, dRow, dRow, dRow]

/-- Claim C5: on the concrete 0,1,2,3 / 16,17,17,16 / 0,0,1,1 trace,
`fill_trace` orders the rows as the two pointer-16 rows (clocks 0 then 3)
followed by the two pointer-17 rows (clocks 1 then 2), and the
`InverseOfClkDiffMinusOne` entry of the clock-0 row is the field inverse of
`3 - 0 - 1 = 2`, a nonzero element rather than the zero sentinel. -/
theorem fill_trace_concrete_scenario :
    (Option.getD (fill_trace aetScenario destScenario) []).map (fun r => (r.clk, r.osp))
        = [(0, 16), (3, 16), (1, 17), (2, 17)] ∧
      ((Option.getD (fill_trace aetScenario destScenario) []).getD 0 dRow).inverseOfClkDiffMinusOne
        = (2 : BFieldElement)⁻¹ ∧
      (2 : BFieldElement)⁻¹ ≠ 0 := by
  have hmul : (2 : BFieldElement) * (2 : BFieldElement)⁻¹ = 1 := by
    rw [ZMod.mul_inv_eq_gcd]
    decide
  refine ⟨by decide, ?_, ?_⟩
  · have h0 : ((Option.getD (fill_trace aetScenario destScenario) []).getD 0
        dRow).inverseOfClkDiffMinusOne = ((3 : BFieldElement) - 0 - 1)⁻¹ := rfl
    rw [h0]
    exact congrArg Inv.inv (by decide)
  · intro hzero
    rw [hzero, mul_zero] at hmul
    exact absurd hmul (by decide)

lemma writeBase_preserves_inverse_column :
    ∀ (fs : List (BFieldElement × BFieldElement × BFieldElement × BFieldElement))
      (dest : List (OpStackRow BFieldElement)) (j : ℕ),
      ((writeBase fs dest).getD j dRow).inverseOfClkDiffMinusOne
        = (dest.getD j dRow).inverseOfClkDiffMinusOne := by
  intro fs
  induction fs with
  | nil => intro dest j; rw [writeBase]
  | cons f fs ih =>
    intro dest j
    obtain ⟨c, i1, o, v⟩ := f
    cases dest with
    | nil => rfl
    | cons r rest =>
      cases j with
      | zero => rfl
      | succ jj =>
        simp only [writeBase, List.getD_cons_succ]
        exact ih rest jj

lemma writeInvAux_getD_of_ge :
    ∀ (rs full : List (OpStackRow BFieldElement)) (n i j : ℕ), ¬ (i + j + 1 < n) →
      (writeInvAux full n i rs).getD j dRow = rs.getD j dRow := by
  intro rs
  induction rs with
  | nil => intro full n i j _; rfl
  | cons r rest ih =>
    intro full n i j h
    cases j with
    | zero =>
      simp only [writeInvAux, List.getD_cons_zero]
      rw [if_neg (by omega)]
    | succ jj =>
      simp only [writeInvAux, List.getD_cons_succ]
      exact ih full n (i + 1) jj (by omega)

/-- Claim C10: `fill_trace` assigns the `InverseOfClkDiffMinusOne` column only
at row indices 0 through n - 2 (n the number of processor rows); the last
row's entry in that column keeps whatever value the destination held before
the call. -/
theorem fill_trace_last_row_inverse_untouched (aet : List (ProcessorRow BFieldElement))
    (dest res : List (OpStackRow BFieldElement)) (_hlen : dest.length = aet.length)
    (hres : fill_trace aet dest = some res) :
    (res.getD (aet.length - 1) dRow).inverseOfClkDiffMinusOne
      = (dest.getD (aet.length - 1) dRow).inverseOfClkDiffMinusOne := by
  unfold fill_trace at hres
  rcases hb : buildBuckets aet [] with _ | buckets <;> rw [hb] at hres
  · exact absurd hres (by simp)
  · simp only at hres
    by_cases h1 : dest.length < (flattenFrom 0 buckets).length
    · rw [if_pos h1] at hres
      exact absurd hres (by simp)
    · rw [if_neg h1] at hres
      by_cases h2 : aet.length ≠ (flattenFrom 0 buckets).length
      · rw [if_pos h2] at hres
        exact absurd hres (by simp)
      · rw [if_neg h2] at hres
        by_cases h3 : aet.length = 0
        · rw [if_pos h3] at hres
          exact absurd hres (by simp)
        · rw [if_neg h3] at hres
          have hres' : writeInv aet.length (writeBase (flattenFrom 0 buckets) dest) = res :=
            Option.some.inj hres
          subst hres'
          rw [writeInv, writeInvAux_getD_of_ge _ _ _ 0 (aet.length - 1) (by omega)]
          exact writeBase_preserves_inverse_column _ dest (aet.length - 1)

/-- The two-cycle trace for the C10 witness. -/
def aetTwo : List (ProcessorRow BFieldElement) := [⟨0, 0, 16, 0⟩, ⟨1, 0, 17, 0⟩]

/-- A destination for the C10 witness whose last row holds the marker value 9
in the `InverseOfClkDiffMinusOne` column. -/
def destMarked : List (OpStackRow BFieldElement) := [dRow, ⟨0, 0, 0, 0, 9⟩]

/-- Witness for claim C10 at a concrete input: the marker value survives in
the last row. -/
theorem fill_trace_last_row_inverse_untouched_witness :
    destMarked.length = aetTwo.length ∧
      ((Option.getD (fill_trace aetTwo destMarked) []).getD (aetTwo.length - 1)
          dRow).inverseOfClkDiffMinusOne
        = (destMarked.getD (aetTwo.length - 1) dRow).inverseOfClkDiffMinusOne :=
  ⟨by decide,
    fill_trace_last_row_inverse_untouched aetTwo destMarked _ (by decide) rfl⟩

/-- Witness for the amended claim C2 at a concrete input: padding a one-row
table with clock 0 to height 2. -/
theorem pad_height_eq_target_witness :
    (∃ k, (2 : ℕ) = 2 ^ k) ∧
      ([⟨0, 0, 16, 0, 0⟩] : List (OpStackRow BFieldElement)).length ≤ 2 ∧
      (∃ r ∈ ([⟨0, 0, 16, 0, 0⟩] : List (OpStackRow BFieldElement)),
        r.clk.val = wrappedMaxClock [⟨0, 0, 16, 0, 0⟩]) ∧
      ∃ t2, pad [⟨0, 0, 16, 0, 0⟩] 2 = Except.ok t2 ∧ t2.length = 2 :=
  ⟨⟨1, rfl⟩, by decide, by decide,
    pad_height_eq_target [⟨0, 0, 16, 0, 0⟩] 2 ⟨1, rfl⟩ (by decide) (by decide)⟩
